import Mathlib

/-!
Verification of the ODE solver library (Euler, RK2, RK4, adaptive RK45).

The C++ sources under src/ode are shallowly embedded here: `State` is a
list of reals (std::vector<double> idealised as exact real arithmetic),
derivative functions are Lean functions, and each solver's `step` and
`solve` routines are translated componentwise.  The fixed-step `solve`
loop of Euler/RK2/RK4 (three verbatim copies in the source) is one
function `fixed_solve_loop` parameterised by the per-scheme step formula;
its termination needs `0 < step_size`, which is folded into the loop
guard (the C++ loop does not terminate otherwise).  The RK45 adaptive
loop's termination is itself one of the properties under study, so it is
embedded with explicit fuel; `rk45_loop` returns `none` exactly when the
fuel runs out before `t` reaches `time_end`.
-/

namespace ODE

noncomputable section

/-- States are vectors of reals (`using State = std::vector<double>`). -/
abbrev State := List ℝ

/-- `using ODEFunction = std::function<State(const State&, Time)>`. -/
abbrev ODEFunction := State → ℝ → State

/-- The solver configuration record (`struct SolverConfig` in types.hpp). -/
structure SolverConfig where
  time_start : ℝ
  time_end : ℝ
  step_size : ℝ
  initial_state : State
  tolerance : ℝ
  min_step : ℝ
  max_step : ℝ

/-- `Solver::add_states`: `result[i] = a[i] + scale_b * b[i]`. -/
def add_states (a b : State) (scale_b : ℝ) : State :=
  List.zipWith (fun ai bi => ai + scale_b * bi) a b

/-- `Euler::step`: `y_next[i] = y[i] + h * k1[i]` with `k1 = f(y, t)`. -/
def euler_step (f : ODEFunction) (t : ℝ) (y : State) (h : ℝ) : State :=
  let k1 := f y t
  List.zipWith (fun yi ki => yi + h * ki) y k1

/-- `RK2Solver::step` (midpoint method). -/
def rk2_step (f : ODEFunction) (t : ℝ) (y : State) (h : ℝ) : State :=
  let k1 := f y t
  let y_mid := List.zipWith (fun yi ki => yi + 0.5 * h * ki) y k1
  let k2 := f y_mid (t + 0.5 * h)
  List.zipWith (fun yi ki => yi + h * ki) y k2

/-- Componentwise combination used in `RK4Solver::step`:
`y[i] + (h/6) * (k1[i] + 2*k2[i] + 2*k3[i] + k4[i])`. -/
def rk4_combine (h : ℝ) : State → State → State → State → State → State
  | a :: y, b :: k1, c :: k2, d :: k3, e :: k4 =>
      (a + h / 6 * (b + 2 * c + 2 * d + e)) :: rk4_combine h y k1 k2 k3 k4
  | _, _, _, _, _ => []
termination_by structural y => y

/-- `RK4Solver::step` (classic 4th-order Runge-Kutta). -/
def rk4_step (f : ODEFunction) (t : ℝ) (y : State) (h : ℝ) : State :=
  let k1 := f y t
  let y_k2 := add_states y k1 (h / 2)
  let k2 := f y_k2 (t + h / 2)
  let y_k3 := add_states y k2 (h / 2)
  let k3 := f y_k3 (t + h / 2)
  let y_k4 := add_states y k3 h
  let k4 := f y_k4 (t + h)
  rk4_combine h y k1 k2 k3 k4

/-- The shared fixed-step `solve` loop of Euler/RK2/RK4 (the three copies
in euler.cpp, rk2.cpp, rk4.cpp are identical).  Returns the list of points
appended after the initial condition.  The C++ `while (t < time_end)` loop
only terminates for positive step sizes, so `0 < step_size` is part of the
loop guard here. -/
def fixed_solve_loop (step : ℝ → State → ℝ → State) (time_end step_size : ℝ)
    (t : ℝ) (y : State) : List (State × ℝ) :=
  if hc : t < time_end ∧ 0 < step_size then
    let hs := min step_size (time_end - t)
    let y' := step t y hs
    (y', t + hs) :: fixed_solve_loop step time_end step_size (t + hs) y'
  else []
termination_by (⌈(time_end - t) / step_size⌉).toNat
decreasing_by
  rcases hc with ⟨ht, hs0⟩
  have hg : 0 < time_end - t := by linarith
  have hrw : time_end - (t + min step_size (time_end - t)) =
      (time_end - t) - min step_size (time_end - t) := by ring
  rw [hrw]
  rcases le_or_lt (time_end - t) step_size with hgs | hsg
  · rw [min_eq_right hgs]
    have h0 : ((time_end - t) - (time_end - t)) / step_size = 0 := by
      rw [sub_self, zero_div]
    rw [h0]
    have h1 : (0 : ℤ) < ⌈(time_end - t) / step_size⌉ :=
      Int.ceil_pos.mpr (div_pos hg hs0)
    simp only [Int.ceil_zero, Int.toNat_zero]
    omega
  · rw [min_eq_left hsg.le]
    have h0 : ((time_end - t) - step_size) / step_size =
        (time_end - t) / step_size - ((1 : ℤ) : ℝ) := by
      rw [sub_div, div_self (ne_of_gt hs0)]
      norm_num
    rw [h0, Int.ceil_sub_int]
    have h1 : (1 : ℤ) < ⌈(time_end - t) / step_size⌉ := by
      rw [Int.lt_ceil]
      push_cast
      rw [lt_div_iff₀ hs0]
      linarith
    omega

/-- `Euler::solve`. -/
def euler_solve (f : ODEFunction) (cfg : SolverConfig) : List (State × ℝ) :=
  (cfg.initial_state, cfg.time_start) ::
    fixed_solve_loop (euler_step f) cfg.time_end cfg.step_size
      cfg.time_start cfg.initial_state

/-- `RK2Solver::solve`. -/
def rk2_solve (f : ODEFunction) (cfg : SolverConfig) : List (State × ℝ) :=
  (cfg.initial_state, cfg.time_start) ::
    fixed_solve_loop (rk2_step f) cfg.time_end cfg.step_size
      cfg.time_start cfg.initial_state

/-- `RK4Solver::solve`. -/
def rk4_solve (f : ODEFunction) (cfg : SolverConfig) : List (State × ℝ) :=
  (cfg.initial_state, cfg.time_start) ::
    fixed_solve_loop (rk4_step f) cfg.time_end cfg.step_size
      cfg.time_start cfg.initial_state

/-- `combine_slopes` from rk45.cpp:
`result[i] = y[i] + h * (c1*k1[i] + c2*k2[i] + c3*k3[i] + c4*k4[i])`. -/
def combine_slopes (h c1 c2 c3 c4 : ℝ) : State → State → State → State → State → State
  | a :: y, b1 :: k1, b2 :: k2, b3 :: k3, b4 :: k4 =>
      (a + h * (c1 * b1 + c2 * b2 + c3 * b3 + c4 * b4)) ::
        combine_slopes h c1 c2 c3 c4 y k1 k2 k3 k4
  | _, _, _, _, _ => []
termination_by structural y => y

/-- `combine_slopes5` from rk45.cpp (five slopes). -/
def combine_slopes5 (h c1 c2 c3 c4 c6 : ℝ) :
    State → State → State → State → State → State → State
  | a :: y, b1 :: k1, b2 :: k2, b3 :: k3, b4 :: k4, b6 :: k6 =>
      (a + h * (c1 * b1 + c2 * b2 + c3 * b3 + c4 * b4 + c6 * b6)) ::
        combine_slopes5 h c1 c2 c3 c4 c6 y k1 k2 k3 k4 k6
  | _, _, _, _, _, _ => []
termination_by structural y => y

/-- The in-place stage loop for k3 in `step_embedded`:
`y_temp[i] = y[i] + h * (c1*k1[i] + c2*k2[i])`. -/
def stage2 (h c1 c2 : ℝ) : State → State → State → State
  | a :: y, b1 :: k1, b2 :: k2 =>
      (a + h * (c1 * b1 + c2 * b2)) :: stage2 h c1 c2 y k1 k2
  | _, _, _ => []
termination_by structural y => y

/-- The in-place stage loop for k4 in `step_embedded` (three slopes). -/
def stage3 (h c1 c2 c3 : ℝ) : State → State → State → State → State
  | a :: y, b1 :: k1, b2 :: k2, b3 :: k3 =>
      (a + h * (c1 * b1 + c2 * b2 + c3 * b3)) :: stage3 h c1 c2 c3 y k1 k2 k3
  | _, _, _, _ => []
termination_by structural y => y

/-- The in-place stage loop for k5 in `step_embedded` (four slopes). -/
def stage4 (h c1 c2 c3 c4 : ℝ) : State → State → State → State → State → State
  | a :: y, b1 :: k1, b2 :: k2, b3 :: k3, b4 :: k4 =>
      (a + h * (c1 * b1 + c2 * b2 + c3 * b3 + c4 * b4)) ::
        stage4 h c1 c2 c3 c4 y k1 k2 k3 k4
  | _, _, _, _, _ => []
termination_by structural y => y

/-- The in-place stage loop for k6 in `step_embedded` (five slopes). -/
def stage5 (h c1 c2 c3 c4 c5 : ℝ) :
    State → State → State → State → State → State → State
  | a :: y, b1 :: k1, b2 :: k2, b3 :: k3, b4 :: k4, b5 :: k5 =>
      (a + h * (c1 * b1 + c2 * b2 + c3 * b3 + c4 * b4 + c5 * b5)) ::
        stage5 h c1 c2 c3 c4 c5 y k1 k2 k3 k4 k5
  | _, _, _, _, _, _ => []
termination_by structural y => y

/-- `RK45Solver::step_embedded`: the Fehlberg embedded 6-stage step,
returning the (4th-order, 5th-order) pair of estimates. -/
def step_embedded (f : ODEFunction) (t : ℝ) (y : State) (h : ℝ) :
    State × State :=
  let k1 := f y t
  let k2 := f (add_states y k1 (h / 4)) (t + h / 4)
  let k3 := f (stage2 h (3 / 32) (9 / 32) y k1 k2) (t + 3 * h / 8)
  let k4 := f (stage3 h (1932 / 2197) (-(7200 / 2197)) (7296 / 2197) y k1 k2 k3)
    (t + 12 * h / 13)
  let k5 := f (stage4 h (439 / 216) (-8) (3680 / 513) (-(845 / 4104)) y k1 k2 k3 k4)
    (t + h)
  let k6 := f (stage5 h (-(8 / 27)) 2 (-(3544 / 2565)) (1859 / 4104) (-(11 / 40))
    y k1 k2 k3 k4 k5) (t + h / 2)
  (combine_slopes h (25 / 216) (1408 / 2565) (2197 / 4104) (-(1 / 5)) y k1 k3 k4 k5,
   combine_slopes5 h (16 / 135) (6656 / 12825) (28561 / 56430) (-(9 / 50)) (2 / 55)
     y k1 k3 k4 k5 k6)

/-- `RK45Solver::compute_error`: infinity norm of the componentwise
relative error `|y5[i] - y4[i]| / (|y5[i]| + 1e-10)`. -/
def compute_error (y4 y5 : State) : ℝ :=
  (List.zipWith (fun a b => |b - a| / (|b| + 1e-10)) y4 y5).foldl max 0

/-- `RK45Solver::adjust_step_size`: the step-size controller. -/
def adjust_step_size (h error tolerance : ℝ) : ℝ :=
  if error = 0 then h * 2
  else h * max 0.1 (min (0.9 * (tolerance / error) ^ (0.25 : ℝ)) 5)

/-- `RK45Solver::step`: the public single step, returning the 4th-order
estimate of the embedded pair. -/
def rk45_step (f : ODEFunction) (t : ℝ) (y : State) (h : ℝ) : State :=
  (step_embedded f t y h).1

/-- Lines 174-180 of rk45.cpp: truncate `h` at `time_end`, then clamp it
into `[min_step, max_step]` (in that order). -/
def rk45_hclamp (cfg : SolverConfig) (t h : ℝ) : ℝ :=
  let h1 := if t + h > cfg.time_end then cfg.time_end - t else h
  max cfg.min_step (min h1 cfg.max_step)

/-- The step size carried to the next iteration after an accepted step
(lines 195-199 of rk45.cpp). -/
def rk45_next_h (cfg : SolverConfig) (h2 err : ℝ) : ℝ :=
  if 0 < err ∧ cfg.min_step < h2 then adjust_step_size h2 err cfg.tolerance
  else h2

/-- One iteration of the RK45 adaptive loop body (lines 174-206 of
rk45.cpp): returns the new `(t, y, h)` working state together with the
point appended to the trajectory, if the step was accepted. -/
def rk45_iterate (f : ODEFunction) (cfg : SolverConfig)
    (t : ℝ) (y : State) (h : ℝ) : (ℝ × State × ℝ) × Option (State × ℝ) :=
  let h2 := rk45_hclamp cfg t h
  let p := step_embedded f t y h2
  let err := compute_error p.1 p.2
  if err ≤ cfg.tolerance ∨ h2 ≤ cfg.min_step then
    ((t + h2, p.1, rk45_next_h cfg h2 err), some (p.1, t + h2))
  else
    ((t, y, adjust_step_size h2 err cfg.tolerance), none)

/-- The RK45 adaptive `while (t < time_end)` loop, with explicit fuel:
`none` means the fuel ran out before `t` reached `time_end`.  Returns the
points appended after the initial condition. -/
def rk45_loop (f : ODEFunction) (cfg : SolverConfig) :
    ℕ → ℝ → State → ℝ → Option (List (State × ℝ))
  | 0, t, _, _ => if t < cfg.time_end then none else some []
  | fuel + 1, t, y, h =>
    if t < cfg.time_end then
      let r := rk45_iterate f cfg t y h
      match r.2 with
      | some pt =>
          (rk45_loop f cfg fuel r.1.1 r.1.2.1 r.1.2.2).map fun rest => pt :: rest
      | none => rk45_loop f cfg fuel r.1.1 r.1.2.1 r.1.2.2
    else some []

/-- `RK45Solver::solve` (with fuel): stores the initial condition, then
runs the adaptive loop. -/
def rk45_solve (f : ODEFunction) (cfg : SolverConfig)
    (fuel : ℕ) : Option (List (State × ℝ)) :=
  (rk45_loop f cfg fuel cfg.time_start cfg.initial_state cfg.step_size).map
    fun rest => (cfg.initial_state, cfg.time_start) :: rest

/-- Componentwise sum of two state vectors (spec-level vector algebra). -/
def vadd (a b : State) : State := List.zipWith (fun x z => x + z) a b

/-- Componentwise scaling of a state vector (spec-level vector algebra). -/
def smul (c : ℝ) (v : State) : State := v.map (fun x => c * x)

/-- The zero derivative function, used as a concrete test input. -/
def fzero : ODEFunction := fun _ _ => [0]

/-- Concrete configuration whose remaining interval (length 1) is smaller
than `min_step` (2) from the very first iteration. -/
def cfg1 : SolverConfig :=
  { time_start := 0, time_end := 1, step_size := 1, initial_state := [1],
    tolerance := 1, min_step := 2, max_step := 3 }

/-- Concrete configuration with interval length 5/2 and
`min_step = max_step = step_size = 1`. -/
def cfg7 : SolverConfig :=
  { time_start := 0, time_end := 5 / 2, step_size := 1, initial_state := [1],
    tolerance := 1, min_step := 1, max_step := 1 }

/-- Second configuration for the fixed-step non-interference claim:
agrees with cfg1 on the four fixed-step fields, differs on the three
adaptive-only fields. -/
def cfg9 : SolverConfig :=
  { time_start := 0, time_end := 1, step_size := 1, initial_state := [1],
    tolerance := 7, min_step := 5, max_step := 9 }

/-- The embedded Fehlberg step as the specification words it: six stages
at time offsets 0, h/4, 3h/8, 12h/13, h, h/2, then the 4th-order estimate
from k1, k3, k4, k5 and the 5th-order estimate from k1, k3, k4, k5, k6,
written in standard vector algebra. -/
def step_embedded_spec (f : ODEFunction) (t : ℝ) (y : State) (h : ℝ) :
    State × State :=
  let k1 := f y t
  let k2 := f (vadd y (smul (h / 4) k1)) (t + h / 4)
  let k3 := f (vadd y (smul h (vadd (smul (3 / 32) k1) (smul (9 / 32) k2))))
    (t + 3 * h / 8)
  let k4 := f (vadd y (smul h (vadd (smul (1932 / 2197) k1)
    (vadd (smul (-(7200 / 2197)) k2) (smul (7296 / 2197) k3))))) (t + 12 * h / 13)
  let k5 := f (vadd y (smul h (vadd (smul (439 / 216) k1) (vadd (smul (-8) k2)
    (vadd (smul (3680 / 513) k3) (smul (-(845 / 4104)) k4)))))) (t + h)
  let k6 := f (vadd y (smul h (vadd (smul (-(8 / 27)) k1) (vadd (smul 2 k2)
    (vadd (smul (-(3544 / 2565)) k3) (vadd (smul (1859 / 4104) k4)
      (smul (-(11 / 40)) k5))))))) (t + h / 2)
  (vadd y (smul h (vadd (smul (25 / 216) k1) (vadd (smul (1408 / 2565) k3)
     (vadd (smul (2197 / 4104) k4) (smul (-(1 / 5)) k5))))),
   vadd y (smul h (vadd (smul (16 / 135) k1) (vadd (smul (6656 / 12825) k3)
     (vadd (smul (28561 / 56430) k4) (vadd (smul (-(9 / 50)) k5)
       (smul (2 / 55) k6)))))))

end

lemma add_states_eq (s : ℝ) : ∀ a b : State,
    add_states a b s = vadd a (smul s b) := by
  intro a
  induction a with
  | nil => intro b; rfl
  | cons x xs ih =>
    intro b
    cases b with
    | nil => rfl
    | cons z zs =>
      simp only [add_states, vadd, smul, List.map_cons, List.zipWith_cons_cons,
        List.cons.injEq]
      exact ⟨trivial, ih zs⟩

lemma stage2_eq (h c1 c2 : ℝ) : ∀ y k1 k2 : State,
    stage2 h c1 c2 y k1 k2 =
      vadd y (smul h (vadd (smul c1 k1) (smul c2 k2))) := by
  intro y
  induction y with
  | nil => intro k1 k2; rfl
  | cons a ys ih =>
    intro k1 k2
    cases k1 with
    | nil => simp [stage2, vadd, smul]
    | cons b1 t1 =>
      cases k2 with
      | nil => simp [stage2, vadd, smul]
      | cons b2 t2 =>
        simp only [stage2, vadd, smul, List.map_cons, List.zipWith_cons_cons,
          List.cons.injEq]
        exact ⟨by ring, ih t1 t2⟩

lemma stage3_eq (h c1 c2 c3 : ℝ) : ∀ y k1 k2 k3 : State,
    stage3 h c1 c2 c3 y k1 k2 k3 =
      vadd y (smul h (vadd (smul c1 k1) (vadd (smul c2 k2) (smul c3 k3)))) := by
  intro y
  induction y with
  | nil => intro k1 k2 k3; rfl
  | cons a ys ih =>
    intro k1 k2 k3
    cases k1 with
    | nil => simp [stage3, vadd, smul]
    | cons b1 t1 =>
      cases k2 with
      | nil => simp [stage3, vadd, smul]
      | cons b2 t2 =>
        cases k3 with
        | nil => simp [stage3, vadd, smul]
        | cons b3 t3 =>
          simp only [stage3, vadd, smul, List.map_cons, List.zipWith_cons_cons,
            List.cons.injEq]
          exact ⟨by ring, ih t1 t2 t3⟩

lemma stage4_eq (h c1 c2 c3 c4 : ℝ) : ∀ y k1 k2 k3 k4 : State,
    stage4 h c1 c2 c3 c4 y k1 k2 k3 k4 =
      vadd y (smul h (vadd (smul c1 k1) (vadd (smul c2 k2)
        (vadd (smul c3 k3) (smul c4 k4))))) := by
  intro y
  induction y with
  | nil => intro k1 k2 k3 k4; rfl
  | cons a ys ih =>
    intro k1 k2 k3 k4
    cases k1 with
    | nil => simp [stage4, vadd, smul]
    | cons b1 t1 =>
      cases k2 with
      | nil => simp [stage4, vadd, smul]
      | cons b2 t2 =>
        cases k3 with
        | nil => simp [stage4, vadd, smul]
        | cons b3 t3 =>
          cases k4 with
          | nil => simp [stage4, vadd, smul]
          | cons b4 t4 =>
            simp only [stage4, vadd, smul, List.map_cons, List.zipWith_cons_cons,
              List.cons.injEq]
            exact ⟨by ring, ih t1 t2 t3 t4⟩

lemma stage5_eq (h c1 c2 c3 c4 c5 : ℝ) : ∀ y k1 k2 k3 k4 k5 : State,
    stage5 h c1 c2 c3 c4 c5 y k1 k2 k3 k4 k5 =
      vadd y (smul h (vadd (smul c1 k1) (vadd (smul c2 k2)
        (vadd (smul c3 k3) (vadd (smul c4 k4) (smul c5 k5)))))) := by
  intro y
  induction y with
  | nil => intro k1 k2 k3 k4 k5; rfl
  | cons a ys ih =>
    intro k1 k2 k3 k4 k5
    cases k1 with
    | nil => simp [stage5, vadd, smul]
    | cons b1 t1 =>
      cases k2 with
      | nil => simp [stage5, vadd, smul]
      | cons b2 t2 =>
        cases k3 with
        | nil => simp [stage5, vadd, smul]
        | cons b3 t3 =>
          cases k4 with
          | nil => simp [stage5, vadd, smul]
          | cons b4 t4 =>
            cases k5 with
            | nil => simp [stage5, vadd, smul]
            | cons b5 t5 =>
              simp only [stage5, vadd, smul, List.map_cons,
                List.zipWith_cons_cons, List.cons.injEq]
              exact ⟨by ring, ih t1 t2 t3 t4 t5⟩

lemma combine_slopes_eq (h c1 c2 c3 c4 : ℝ) : ∀ y k1 k2 k3 k4 : State,
    combine_slopes h c1 c2 c3 c4 y k1 k2 k3 k4 =
      vadd y (smul h (vadd (smul c1 k1) (vadd (smul c2 k2)
        (vadd (smul c3 k3) (smul c4 k4))))) := by
  intro y
  induction y with
  | nil => intro k1 k2 k3 k4; rfl
  | cons a ys ih =>
    intro k1 k2 k3 k4
    cases k1 with
    | nil => simp [combine_slopes, vadd, smul]
    | cons b1 t1 =>
      cases k2 with
      | nil => simp [combine_slopes, vadd, smul]
      | cons b2 t2 =>
        cases k3 with
        | nil => simp [combine_slopes, vadd, smul]
        | cons b3 t3 =>
          cases k4 with
          | nil => simp [combine_slopes, vadd, smul]
          | cons b4 t4 =>
            simp only [combine_slopes, vadd, smul, List.map_cons,
              List.zipWith_cons_cons, List.cons.injEq]
            exact ⟨by ring, ih t1 t2 t3 t4⟩

lemma combine_slopes5_eq (h c1 c2 c3 c4 c6 : ℝ) : ∀ y k1 k2 k3 k4 k6 : State,
    combine_slopes5 h c1 c2 c3 c4 c6 y k1 k2 k3 k4 k6 =
      vadd y (smul h (vadd (smul c1 k1) (vadd (smul c2 k2)
        (vadd (smul c3 k3) (vadd (smul c4 k4) (smul c6 k6)))))) := by
  intro y
  induction y with
  | nil => intro k1 k2 k3 k4 k6; rfl
  | cons a ys ih =>
    intro k1 k2 k3 k4 k6
    cases k1 with
    | nil => simp [combine_slopes5, vadd, smul]
    | cons b1 t1 =>
      cases k2 with
      | nil => simp [combine_slopes5, vadd, smul]
      | cons b2 t2 =>
        cases k3 with
        | nil => simp [combine_slopes5, vadd, smul]
        | cons b3 t3 =>
          cases k4 with
          | nil => simp [combine_slopes5, vadd, smul]
          | cons b4 t4 =>
            cases k6 with
            | nil => simp [combine_slopes5, vadd, smul]
            | cons b6 t6 =>
              simp only [combine_slopes5, vadd, smul, List.map_cons,
                List.zipWith_cons_cons, List.cons.injEq]
              exact ⟨by ring, ih t1 t2 t3 t4 t6⟩

/-- C4: for every f, t, y, h, `step_embedded` evaluates the six Fehlberg
stages at time offsets 0, h/4, 3h/8, 12h/13, h, h/2 with the fixed
rational stage coefficients and returns `(y4, y5)` with
`y4 = y + h*(25/216*k1 + 1408/2565*k3 + 2197/4104*k4 - 1/5*k5)` (k2, k6
excluded) and
`y5 = y + h*(16/135*k1 + 6656/12825*k3 + 28561/56430*k4 - 9/50*k5 + 2/55*k6)`,
componentwise: the code agrees with the specification-level formulation
`step_embedded_spec`. -/
theorem c4_step_embedded_fehlberg (f : ODEFunction) (t : ℝ) (y : State) (h : ℝ) :
    step_embedded f t y h = step_embedded_spec f t y h := by
  simp only [step_embedded, step_embedded_spec, add_states_eq, stage2_eq,
    stage3_eq, stage4_eq, stage5_eq, combine_slopes_eq, combine_slopes5_eq]

lemma le_foldl_max (l : List ℝ) : ∀ a : ℝ, a ≤ l.foldl max a := by
  induction l with
  | nil => intro a; exact le_refl a
  | cons x xs ih => intro a; exact le_trans (le_max_left a x) (ih (max a x))

lemma compute_error_nonneg (y4 y5 : State) : 0 ≤ compute_error y4 y5 :=
  le_foldl_max _ 0

lemma rk45_iterate_accept (f : ODEFunction) (cfg : SolverConfig) (t : ℝ)
    (y : State) (h : ℝ)
    (hacc : compute_error (step_embedded f t y (rk45_hclamp cfg t h)).1
        (step_embedded f t y (rk45_hclamp cfg t h)).2 ≤ cfg.tolerance ∨
      rk45_hclamp cfg t h ≤ cfg.min_step) :
    rk45_iterate f cfg t y h =
      ((t + rk45_hclamp cfg t h, (step_embedded f t y (rk45_hclamp cfg t h)).1,
        rk45_next_h cfg (rk45_hclamp cfg t h)
          (compute_error (step_embedded f t y (rk45_hclamp cfg t h)).1
            (step_embedded f t y (rk45_hclamp cfg t h)).2)),
       some ((step_embedded f t y (rk45_hclamp cfg t h)).1,
         t + rk45_hclamp cfg t h)) := by
  simp only [rk45_iterate]
  rw [if_pos hacc]

lemma rk45_iterate_reject (f : ODEFunction) (cfg : SolverConfig) (t : ℝ)
    (y : State) (h : ℝ)
    (hrej : ¬ (compute_error (step_embedded f t y (rk45_hclamp cfg t h)).1
          (step_embedded f t y (rk45_hclamp cfg t h)).2 ≤ cfg.tolerance ∨
        rk45_hclamp cfg t h ≤ cfg.min_step)) :
    rk45_iterate f cfg t y h =
      ((t, y, adjust_step_size (rk45_hclamp cfg t h)
          (compute_error (step_embedded f t y (rk45_hclamp cfg t h)).1
            (step_embedded f t y (rk45_hclamp cfg t h)).2) cfg.tolerance),
       none) := by
  simp only [rk45_iterate]
  rw [if_neg hrej]

lemma rk45_loop_succ_iterate (f : ODEFunction) (cfg : SolverConfig) (fuel : ℕ)
    (t : ℝ) (y : State) (h : ℝ) (ht : t < cfg.time_end) :
    rk45_loop f cfg (fuel + 1) t y h =
      match (rk45_iterate f cfg t y h).2 with
      | some pt =>
          (rk45_loop f cfg fuel (rk45_iterate f cfg t y h).1.1
              (rk45_iterate f cfg t y h).1.2.1
              (rk45_iterate f cfg t y h).1.2.2).map fun rest => pt :: rest
      | none => rk45_loop f cfg fuel (rk45_iterate f cfg t y h).1.1
          (rk45_iterate f cfg t y h).1.2.1 (rk45_iterate f cfg t y h).1.2.2 := by
  rw [rk45_loop, if_pos ht]

lemma rk45_loop_accept (f : ODEFunction) (cfg : SolverConfig) (fuel : ℕ)
    (t : ℝ) (y : State) (h : ℝ) (st : ℝ × State × ℝ) (pt : State × ℝ)
    (ht : t < cfg.time_end) (hit : rk45_iterate f cfg t y h = (st, some pt)) :
    rk45_loop f cfg (fuel + 1) t y h =
      (rk45_loop f cfg fuel st.1 st.2.1 st.2.2).map fun rest => pt :: rest := by
  rw [rk45_loop_succ_iterate f cfg fuel t y h ht, hit]

lemma rk45_loop_reject (f : ODEFunction) (cfg : SolverConfig) (fuel : ℕ)
    (t : ℝ) (y : State) (h : ℝ) (st : ℝ × State × ℝ)
    (ht : t < cfg.time_end) (hit : rk45_iterate f cfg t y h = (st, none)) :
    rk45_loop f cfg (fuel + 1) t y h =
      rk45_loop f cfg fuel st.1 st.2.1 st.2.2 := by
  rw [rk45_loop_succ_iterate f cfg fuel t y h ht, hit]

lemma rk45_loop_done (f : ODEFunction) (cfg : SolverConfig) (fuel : ℕ)
    (t : ℝ) (y : State) (h : ℝ) (ht : ¬ t < cfg.time_end) :
    rk45_loop f cfg fuel t y h = some [] := by
  cases fuel with
  | zero => rw [rk45_loop, if_neg ht]
  | succ n => rw [rk45_loop, if_neg ht]

lemma adjust_shrink (h2 err tol : ℝ) (hh2 : 0 < h2) (htol : 0 < tol)
    (herr : tol < err) : adjust_step_size h2 err tol < 0.9 * h2 := by
  have herr0 : (0 : ℝ) < err := lt_trans htol herr
  unfold adjust_step_size
  rw [if_neg (ne_of_gt herr0)]
  have hx0 : (0 : ℝ) ≤ (tol / err) ^ (0.25 : ℝ) :=
    Real.rpow_nonneg (div_nonneg htol.le herr0.le) _
  have hx1 : (tol / err) ^ (0.25 : ℝ) < 1 :=
    Real.rpow_lt_one (div_nonneg htol.le herr0.le)
      ((div_lt_one herr0).mpr herr) (by norm_num)
  have hf : max 0.1 (min (0.9 * (tol / err) ^ (0.25 : ℝ)) 5) < 0.9 := by
    apply max_lt (by norm_num)
    calc min (0.9 * (tol / err) ^ (0.25 : ℝ)) 5
        ≤ 0.9 * (tol / err) ^ (0.25 : ℝ) := min_le_left _ _
      _ < 0.9 * 1 := by nlinarith
      _ = 0.9 := mul_one _
  calc h2 * max 0.1 (min (0.9 * (tol / err) ^ (0.25 : ℝ)) 5)
      < h2 * 0.9 := mul_lt_mul_of_pos_left hf hh2
    _ = 0.9 * h2 := mul_comm _ _

lemma adjust_le_five (h2 err tol : ℝ) (hh2 : 0 ≤ h2) :
    adjust_step_size h2 err tol ≤ 5 * h2 := by
  unfold adjust_step_size
  split
  · nlinarith
  · have hf : max 0.1 (min (0.9 * (tol / err) ^ (0.25 : ℝ)) 5) ≤ 5 :=
      max_le (by norm_num) (min_le_right _ _)
    calc h2 * max 0.1 (min (0.9 * (tol / err) ^ (0.25 : ℝ)) 5)
        ≤ h2 * 5 := mul_le_mul_of_nonneg_left hf hh2
      _ = 5 * h2 := mul_comm _ _

/-- C3: in the adaptive loop, a step is accepted exactly when
`error ≤ tolerance` or the clamped step size is at most `min_step`; on
acceptance the state becomes the 4th-order estimate, time advances by the
clamped step, and that point is appended to the trajectory; on rejection
the time, state and trajectory are unchanged and only the step size is
shrunk (strictly) before retrying. -/
theorem c3_accept_reject (f : ODEFunction) (cfg : SolverConfig) (fuel : ℕ)
    (t : ℝ) (y : State) (h : ℝ) (hm : 0 < cfg.min_step)
    (htol : 0 < cfg.tolerance) (ht : t < cfg.time_end) :
    let h2 := rk45_hclamp cfg t h
    let y4 := (step_embedded f t y h2).1
    let err := compute_error (step_embedded f t y h2).1 (step_embedded f t y h2).2
    ((err ≤ cfg.tolerance ∨ h2 ≤ cfg.min_step) →
      rk45_loop f cfg (fuel + 1) t y h =
        (rk45_loop f cfg fuel (t + h2) y4 (rk45_next_h cfg h2 err)).map
          fun rest => (y4, t + h2) :: rest) ∧
    (¬ (err ≤ cfg.tolerance ∨ h2 ≤ cfg.min_step) →
      (rk45_loop f cfg (fuel + 1) t y h =
        rk45_loop f cfg fuel t y (adjust_step_size h2 err cfg.tolerance)) ∧
      adjust_step_size h2 err cfg.tolerance < h2) := by
  intro h2 y4 err
  constructor
  · intro hacc
    exact rk45_loop_accept f cfg fuel t y h _ _ ht
      (rk45_iterate_accept f cfg t y h hacc)
  · intro hrej
    refine ⟨rk45_loop_reject f cfg fuel t y h _ ht
      (rk45_iterate_reject f cfg t y h hrej), ?_⟩
    push_neg at hrej
    have hh2 : 0 < h2 := lt_trans hm hrej.2
    have := adjust_shrink h2 err cfg.tolerance hh2 htol hrej.1
    linarith

lemma rpow_quarter_lt_iff (a c : ℝ) (ha : 0 < a) (hc : 0 < c) :
    c < a ^ (0.25 : ℝ) ↔ c ^ (4 : ℕ) < a := by
  have hq : ((a ^ (0.25 : ℝ)) ^ (4 : ℕ) : ℝ) = a := by
    rw [← Real.rpow_natCast (a ^ (0.25 : ℝ)) 4, ← Real.rpow_mul ha.le]
    norm_num
  constructor
  · intro hlt
    calc c ^ (4 : ℕ) < (a ^ (0.25 : ℝ)) ^ (4 : ℕ) :=
          pow_lt_pow_left₀ hlt hc.le (by norm_num)
      _ = a := hq
  · intro hlt
    by_contra hle
    push_neg at hle
    have hp : (a ^ (0.25 : ℝ)) ^ (4 : ℕ) ≤ c ^ (4 : ℕ) :=
      pow_le_pow_left₀ (Real.rpow_nonneg ha.le _) hle 4
    rw [hq] at hp
    linarith

/-- C6 counterexample: with h = 1, error = 1, tolerance = 1 (so
0 < error ≤ tolerance, an accepted step) and min_step = 1/2 < h, the
controller returns 0.9 < h: the step size does not grow. -/
theorem c6_controller_can_shrink_on_accept :
    (0 : ℝ) < 1 ∧ (1 : ℝ) ≤ 1 ∧ (1 / 2 : ℝ) < 1 ∧
      adjust_step_size 1 1 1 < 1 := by
  refine ⟨by norm_num, by norm_num, by norm_num, ?_⟩
  unfold adjust_step_size
  rw [if_neg (by norm_num : (1 : ℝ) ≠ 0)]
  rw [show (1 : ℝ) / 1 = 1 by norm_num, Real.one_rpow, mul_one]
  rw [min_eq_left (by norm_num : (0.9 : ℝ) ≤ 5)]
  rw [max_eq_right (by norm_num : (0.1 : ℝ) ≤ 0.9)]
  norm_num

/-- C6 amended: for 0 < h, 0 < error, 0 < tolerance, the controller
output `h * clamp(0.9*(tolerance/error)^(1/4), 0.1, 5)` exceeds h if and
only if error < (0.9)^4 * tolerance = 0.6561 * tolerance; in particular
an accepted step with 0.6561*tolerance ≤ error ≤ tolerance shrinks h. -/
theorem c6_growth_iff (h err tol : ℝ) (hh : 0 < h) (herr : 0 < err)
    (htol : 0 < tol) :
    h < adjust_step_size h err tol ↔ err < 6561 / 10000 * tol := by
  unfold adjust_step_size
  rw [if_neg (ne_of_gt herr)]
  have hdiv : 0 < tol / err := div_pos htol herr
  rw [lt_mul_iff_one_lt_right hh, lt_max_iff]
  have h01 : ¬ (1 : ℝ) < 0.1 := by norm_num
  simp only [h01, false_or]
  rw [lt_min_iff]
  have h5 : (1 : ℝ) < 5 := by norm_num
  simp only [h5, and_true]
  have h2 : (1 : ℝ) < 0.9 * (tol / err) ^ (0.25 : ℝ) ↔
      (10 / 9 : ℝ) < (tol / err) ^ (0.25 : ℝ) := by
    constructor <;> intro hx <;> nlinarith
  rw [h2, rpow_quarter_lt_iff (tol / err) (10 / 9) hdiv (by norm_num)]
  rw [lt_div_iff₀ herr]
  have e4 : ((10 / 9 : ℝ)) ^ (4 : ℕ) = 10000 / 6561 := by norm_num
  rw [e4]
  constructor <;> intro hx <;> nlinarith

/-- C6 witness for the amended growth criterion, at h = 1, error = 1,
tolerance = 100. -/
theorem c6_growth_iff_witness :
    (0 : ℝ) < 1 ∧ (0 : ℝ) < 1 ∧ (0 : ℝ) < 100 ∧
      ((1 : ℝ) < adjust_step_size 1 1 100 ↔ (1 : ℝ) < 6561 / 10000 * 100) :=
  ⟨by norm_num, by norm_num, by norm_num,
    c6_growth_iff 1 1 100 (by norm_num) (by norm_num) (by norm_num)⟩

/-- C10: the public single-step method returns exactly the 4th-order
estimate of the embedded pair (the 5th-order estimate is discarded), and
on any accepted adaptive step the appended state is exactly this
single-step result at the clamped step size. -/
theorem c10_step_returns_y4 (f : ODEFunction) (t : ℝ) (y : State) (h : ℝ) :
    rk45_step f t y h = (step_embedded f t y h).1 ∧
    ∀ (cfg : SolverConfig) (p : State × ℝ),
      (rk45_iterate f cfg t y h).2 = some p →
        p.1 = rk45_step f t y (rk45_hclamp cfg t h) := by
  refine ⟨rfl, ?_⟩
  intro cfg p hp
  simp only [rk45_iterate] at hp
  by_cases hc : compute_error (step_embedded f t y (rk45_hclamp cfg t h)).1
      (step_embedded f t y (rk45_hclamp cfg t h)).2 ≤ cfg.tolerance ∨
      rk45_hclamp cfg t h ≤ cfg.min_step
  · rw [if_pos hc] at hp
    simp only [Option.some.injEq] at hp
    rw [← hp]
    rfl

  · rw [if_neg hc] at hp
    simp at hp

lemma step_embedded_fzero (t h : ℝ) : step_embedded fzero t [1] h = ([1], [1]) := by
  simp [step_embedded, fzero, add_states, stage2, stage3, stage4, stage5,
    combine_slopes, combine_slopes5]

lemma compute_error_ones : compute_error [1] [1] = 0 := by
  simp [compute_error]

lemma hclamp_cfg1 : rk45_hclamp cfg1 0 1 = 2 := by
  simp only [rk45_hclamp, cfg1]
  rw [if_neg (by norm_num : ¬ ((0 : ℝ) + 1 > 1))]
  rw [min_eq_left (by norm_num : (1 : ℝ) ≤ 3)]
  rw [max_eq_left (by norm_num : (1 : ℝ) ≤ 2)]

lemma iterate_cfg1 : rk45_iterate fzero cfg1 0 [1] 1 = ((2, [1], 2), some ([1], 2)) := by
  have hacc : compute_error (step_embedded fzero 0 [1] (rk45_hclamp cfg1 0 1)).1
      (step_embedded fzero 0 [1] (rk45_hclamp cfg1 0 1)).2 ≤ cfg1.tolerance ∨
      rk45_hclamp cfg1 0 1 ≤ cfg1.min_step := by
    left
    rw [hclamp_cfg1, step_embedded_fzero]
    rw [show ((([1], [1]) : State × State)).1 = [1] from rfl,
      show ((([1], [1]) : State × State)).2 = [1] from rfl, compute_error_ones]
    norm_num [cfg1]
  rw [rk45_iterate_accept fzero cfg1 0 [1] 1 hacc]
  rw [hclamp_cfg1, step_embedded_fzero]
  simp only [rk45_next_h, compute_error_ones]
  rw [if_neg (by norm_num)]
  norm_num

lemma loop_cfg1 : rk45_loop fzero cfg1 2 0 [1] 1 = some [([1], 2)] := by
  have hdone : rk45_loop fzero cfg1 1 2 [1] 2 = some [] :=
    rk45_loop_done fzero cfg1 1 2 [1] 2 (by norm_num [cfg1])
  have hstep := rk45_loop_accept fzero cfg1 1 0 [1] 1 (2, [1], 2) ([1], 2)
    (by norm_num [cfg1]) iterate_cfg1
  rw [show (2 : ℕ) = 1 + 1 from rfl, hstep]
  simp only []
  rw [hdone]
  rfl

lemma solve_cfg1 : rk45_solve fzero cfg1 2 = some [([1], 0), ([1], 2)] := by
  unfold rk45_solve
  rw [show cfg1.time_start = (0 : ℝ) from rfl,
    show cfg1.initial_state = ([1] : State) from rfl,
    show cfg1.step_size = (1 : ℝ) from rfl, loop_cfg1]
  rfl

/-- C1 (code defect): with time_start 0, time_end 1, step_size 1,
tolerance 1, min_step 2, max_step 3 and the zero derivative — a valid
configuration for the claim (time_end ≥ time_start, step_size > 0,
0 < min_step ≤ max_step) — adaptive solve returns a trajectory whose last
time is 2, not time_end = 1: the [min_step, max_step] clamp is applied
after the final-step truncation and pushes the step past time_end,
contradicting the code's own comment at rk45.cpp line 173.  (For the
fixed-step schemes the claimed property does hold; see the C5 theorem.) -/
theorem c1_rk45_last_time_overshoots :
    rk45_solve fzero cfg1 2 = some [([1], 0), ([1], 2)] ∧
    cfg1.time_end = 1 ∧ (2 : ℝ) ≠ cfg1.time_end := by
  refine ⟨solve_cfg1, rfl, ?_⟩
  rw [show cfg1.time_end = (1 : ℝ) from rfl]
  norm_num

/-- C2 (code defect): at the same configuration, the very first attempted
(and accepted) step uses the clamped step size h = min_step = 2 with
t + h = 2 > time_end = 1, and the point stored in the trajectory has time
2 > time_end: a step does overshoot time_end. -/
theorem c2_step_exceeds_time_end :
    rk45_hclamp cfg1 0 1 = 2 ∧ cfg1.time_end < 0 + rk45_hclamp cfg1 0 1 ∧
    (rk45_iterate fzero cfg1 0 [1] 1).2 = some ([1], 2) := by
  refine ⟨hclamp_cfg1, ?_, ?_⟩
  · rw [hclamp_cfg1, show cfg1.time_end = (1 : ℝ) from rfl]
    norm_num
  · rw [iterate_cfg1]

/-- C8: for all four schemes the first trajectory element is exactly
(initial_state, time_start): it is stored before any step is taken. -/
theorem c8_initial_condition (f : ODEFunction) (cfg : SolverConfig) :
    (euler_solve f cfg).head? = some (cfg.initial_state, cfg.time_start) ∧
    (rk2_solve f cfg).head? = some (cfg.initial_state, cfg.time_start) ∧
    (rk4_solve f cfg).head? = some (cfg.initial_state, cfg.time_start) ∧
    ∀ (fuel : ℕ) (sol : List (State × ℝ)), rk45_solve f cfg fuel = some sol →
      sol.head? = some (cfg.initial_state, cfg.time_start) := by
  refine ⟨rfl, rfl, rfl, ?_⟩
  intro fuel sol hsol
  unfold rk45_solve at hsol
  cases hloop : rk45_loop f cfg fuel cfg.time_start cfg.initial_state
      cfg.step_size with
  | none => rw [hloop] at hsol; simp at hsol
  | some rest =>
    rw [hloop] at hsol
    simp only [Option.map_some', Option.some.injEq] at hsol
    rw [← hsol]
    rfl

/-- C8 witness at a concrete derivative function and configuration. -/
theorem c8_initial_condition_witness :
    (euler_solve fzero cfg1).head? = some (([1] : State), (0 : ℝ)) ∧
    ([([1], 0), ([1], 2)] : List (State × ℝ)).head? =
      some (([1] : State), (0 : ℝ)) :=
  ⟨(c8_initial_condition fzero cfg1).1,
   (c8_initial_condition fzero cfg1).2.2.2 2 _ solve_cfg1⟩

/-- C9: the fixed-step solvers read only time_start, time_end, step_size
and initial_state from the configuration; two configurations agreeing on
those four fields (and arbitrary on tolerance, min_step, max_step) yield
identical trajectories. -/
theorem c9_fixed_step_ignores_adaptive_fields (f : ODEFunction)
    (cfg cfg' : SolverConfig) (h1 : cfg'.time_start = cfg.time_start)
    (h2 : cfg'.time_end = cfg.time_end) (h3 : cfg'.step_size = cfg.step_size)
    (h4 : cfg'.initial_state = cfg.initial_state) :
    euler_solve f cfg' = euler_solve f cfg ∧
    rk2_solve f cfg' = rk2_solve f cfg ∧
    rk4_solve f cfg' = rk4_solve f cfg := by
  unfold euler_solve rk2_solve rk4_solve
  rw [h1, h2, h3, h4]
  exact ⟨rfl, rfl, rfl⟩

/-- C9 witness: cfg9 differs from cfg1 exactly in tolerance, min_step and
max_step. -/
theorem c9_witness :
    euler_solve fzero cfg9 = euler_solve fzero cfg1 ∧
    rk2_solve fzero cfg9 = rk2_solve fzero cfg1 ∧
    rk4_solve fzero cfg9 = rk4_solve fzero cfg1 :=
  c9_fixed_step_ignores_adaptive_fields fzero cfg1 cfg9 rfl rfl rfl rfl

/-- C10 witness: on the concretely accepted first step at cfg1, the
appended state equals the public single-step result. -/
theorem c10_step_returns_y4_witness :
    rk45_step fzero 0 [1] 1 = (step_embedded fzero 0 [1] 1).1 ∧
    (([1], (2 : ℝ)) : State × ℝ).1 = rk45_step fzero 0 [1] (rk45_hclamp cfg1 0 1) :=
  ⟨(c10_step_returns_y4 fzero 0 [1] 1).1,
   (c10_step_returns_y4 fzero 0 [1] 1).2 cfg1 ([1], 2) (by rw [iterate_cfg1])⟩

/-- C3 witness: the concrete accepted first step at cfg1. -/
theorem c3_accept_reject_witness :
    let h2 := rk45_hclamp cfg1 0 1
    let y4 := (step_embedded fzero 0 [1] h2).1
    let err := compute_error (step_embedded fzero 0 [1] h2).1
      (step_embedded fzero 0 [1] h2).2
    ((err ≤ cfg1.tolerance ∨ h2 ≤ cfg1.min_step) →
      rk45_loop fzero cfg1 (1 + 1) 0 [1] 1 =
        (rk45_loop fzero cfg1 1 (0 + h2) y4 (rk45_next_h cfg1 h2 err)).map
          fun rest => (y4, 0 + h2) :: rest) ∧
    (¬ (err ≤ cfg1.tolerance ∨ h2 ≤ cfg1.min_step) →
      (rk45_loop fzero cfg1 (1 + 1) 0 [1] 1 =
        rk45_loop fzero cfg1 1 0 [1] (adjust_step_size h2 err cfg1.tolerance)) ∧
      adjust_step_size h2 err cfg1.tolerance < h2) :=
  c3_accept_reject fzero cfg1 1 0 [1] 1 (by norm_num [cfg1])
    (by norm_num [cfg1]) (by norm_num [cfg1])

lemma fixed_loop_pos (step : ℝ → State → ℝ → State) (tEnd s t : ℝ) (y : State)
    (hc : t < tEnd ∧ 0 < s) :
    fixed_solve_loop step tEnd s t y =
      (step t y (min s (tEnd - t)), t + min s (tEnd - t)) ::
        fixed_solve_loop step tEnd s (t + min s (tEnd - t))
          (step t y (min s (tEnd - t))) := by
  rw [fixed_solve_loop, dif_pos hc]

lemma fixed_loop_neg (step : ℝ → State → ℝ → State) (tEnd s t : ℝ) (y : State)
    (hc : ¬ (t < tEnd ∧ 0 < s)) :
    fixed_solve_loop step tEnd s t y = [] := by
  rw [fixed_solve_loop, dif_neg hc]

lemma fixed_loop_times (step : ℝ → State → ℝ → State) (tEnd s : ℝ) (hs : 0 < s) :
    ∀ (n : ℕ) (t : ℝ) (y : State), (⌈(tEnd - t) / s⌉).toNat = n →
      (fixed_solve_loop step tEnd s t y).map Prod.snd =
        (List.range n).map fun i : ℕ => min (t + ((i : ℝ) + 1) * s) tEnd := by
  intro n
  induction n with
  | zero =>
    intro t y hn
    have hle : tEnd - t ≤ 0 := by
      by_contra hpos
      push_neg at hpos
      have : (0 : ℤ) < ⌈(tEnd - t) / s⌉ := Int.ceil_pos.mpr (div_pos hpos hs)
      omega
    have hnt : ¬ t < tEnd := by linarith
    rw [fixed_loop_neg step tEnd s t y (by tauto)]
    rfl
  | succ k ih =>
    intro t y hn
    have hpos : (0 : ℤ) < ⌈(tEnd - t) / s⌉ := by omega
    have hg : 0 < tEnd - t := by
      have h1 := Int.ceil_pos.mp hpos
      have h2 : tEnd - t = (tEnd - t) / s * s := (div_mul_cancel₀ _ (ne_of_gt hs)).symm
      nlinarith
    have ht : t < tEnd := by linarith
    rw [fixed_loop_pos step tEnd s t y ⟨ht, hs⟩]
    rcases le_or_lt (tEnd - t) s with hgs | hsg
    · have hmin : min s (tEnd - t) = tEnd - t := min_eq_right hgs
      have hceil : ⌈(tEnd - t) / s⌉ = 1 := by
        have hle1 : (tEnd - t) / s ≤ ((1 : ℤ) : ℝ) := by
          push_cast
          rw [div_le_one hs]
          exact hgs
        have := Int.ceil_le.mpr hle1
        omega
      have hk : k = 0 := by omega
      subst hk
      rw [hmin]
      have htEnd : t + (tEnd - t) = tEnd := by ring
      rw [htEnd]
      rw [fixed_loop_neg step tEnd s tEnd _ (fun hcc => lt_irrefl _ hcc.1)]
      rw [show List.range 1 = [0] from rfl]
      simp only [List.map_cons, List.map_nil]
      congr 1
      rw [show ((0 : ℕ) : ℝ) + 1 = 1 by norm_num, one_mul]
      exact (min_eq_right (by linarith)).symm
    · have hmin : min s (tEnd - t) = s := min_eq_left hsg.le
      rw [hmin]
      have hmeasure : (⌈(tEnd - (t + s)) / s⌉).toNat = k := by
        have h0 : (tEnd - (t + s)) / s = (tEnd - t) / s - ((1 : ℤ) : ℝ) := by
          push_cast
          field_simp
          ring
        rw [h0, Int.ceil_sub_int]
        have h1 : (1 : ℤ) < ⌈(tEnd - t) / s⌉ := by
          rw [Int.lt_ceil]
          push_cast
          rw [lt_div_iff₀ hs]
          linarith
        omega
      have htail := ih (t + s) (step t y s) hmeasure
      simp only [List.map_cons, htail]
      rw [List.range_succ_eq_map]
      simp only [List.map_cons, List.map_map]
      congr 1
      · rw [show ((0 : ℕ) : ℝ) + 1 = 1 by norm_num, one_mul]
        exact (min_eq_left (by linarith)).symm
      · apply List.map_congr_left
        intro i hi
        simp only [Function.comp_apply]
        congr 1
        push_cast
        ring

lemma fixed_solve_times (step : ℝ → State → ℝ → State) (tEnd s t0 : ℝ)
    (y0 : State) (hs : 0 < s) (ht : t0 < tEnd) :
    ((y0, t0) :: fixed_solve_loop step tEnd s t0 y0).map Prod.snd =
      (List.range ((⌈(tEnd - t0) / s⌉).toNat + 1)).map
        fun i : ℕ => min (t0 + (i : ℝ) * s) tEnd := by
  have hloop := fixed_loop_times step tEnd s hs (⌈(tEnd - t0) / s⌉).toNat t0 y0 rfl
  simp only [List.map_cons, hloop]
  rw [List.range_succ_eq_map]
  simp only [List.map_cons, List.map_map]
  congr 1
  · rw [show ((0 : ℕ) : ℝ) = 0 by norm_num, zero_mul, add_zero]
    exact (min_eq_left ht.le).symm
  · apply List.map_congr_left
    intro i hi
    simp only [Function.comp_apply]
    congr 1
    push_cast
    ring

/-- C5: for each fixed-step scheme, with time_end > time_start and
step_size > 0, the trajectory's times are exactly the grid
min(time_start + i*step_size, time_end) for i = 0..n where
n = ceil((time_end - time_start)/step_size): so the loop takes exactly n
steps (trajectory length n+1), each step advances time by
min(step_size, time_end - t), no time exceeds time_end, and the interval
is covered once, without gaps. -/
theorem c5_fixed_step_grid (f g j : ODEFunction) (cfg : SolverConfig)
    (hs : 0 < cfg.step_size) (ht : cfg.time_start < cfg.time_end) :
    ∀ sol ∈ [euler_solve f cfg, rk2_solve g cfg, rk4_solve j cfg],
      sol.map Prod.snd =
        (List.range
            ((⌈(cfg.time_end - cfg.time_start) / cfg.step_size⌉).toNat + 1)).map
          (fun i : ℕ => min (cfg.time_start + (i : ℝ) * cfg.step_size) cfg.time_end) ∧
      sol.length =
        (⌈(cfg.time_end - cfg.time_start) / cfg.step_size⌉).toNat + 1 := by
  have key : ∀ stepf : ℝ → State → ℝ → State,
      ((cfg.initial_state, cfg.time_start) ::
          fixed_solve_loop stepf cfg.time_end cfg.step_size cfg.time_start
            cfg.initial_state).map Prod.snd =
        (List.range
            ((⌈(cfg.time_end - cfg.time_start) / cfg.step_size⌉).toNat + 1)).map
          (fun i : ℕ => min (cfg.time_start + (i : ℝ) * cfg.step_size) cfg.time_end) :=
    fun stepf => fixed_solve_times stepf cfg.time_end cfg.step_size
      cfg.time_start cfg.initial_state hs ht
  have klen : ∀ stepf : ℝ → State → ℝ → State,
      ((cfg.initial_state, cfg.time_start) ::
          fixed_solve_loop stepf cfg.time_end cfg.step_size cfg.time_start
            cfg.initial_state).length =
        (⌈(cfg.time_end - cfg.time_start) / cfg.step_size⌉).toNat + 1 := by
    intro stepf
    have hlen := congrArg List.length (key stepf)
    simpa using hlen
  intro sol hsol
  simp only [List.mem_cons, List.mem_singleton, List.not_mem_nil, or_false] at hsol
  rcases hsol with h | h | h <;> subst h
  · exact ⟨key (euler_step f), klen (euler_step f)⟩
  · exact ⟨key (rk2_step g), klen (rk2_step g)⟩
  · exact ⟨key (rk4_step j), klen (rk4_step j)⟩

/-- C5 witness at cfg7 (interval 5/2, step 1, so 3 steps), instantiated
at the Euler trajectory. -/
theorem c5_fixed_step_grid_witness :
    (euler_solve fzero cfg7).map Prod.snd =
      (List.range
          ((⌈(cfg7.time_end - cfg7.time_start) / cfg7.step_size⌉).toNat + 1)).map
        (fun i : ℕ => min (cfg7.time_start + (i : ℝ) * cfg7.step_size) cfg7.time_end) ∧
    (euler_solve fzero cfg7).length =
      (⌈(cfg7.time_end - cfg7.time_start) / cfg7.step_size⌉).toNat + 1 :=
  c5_fixed_step_grid fzero fzero fzero cfg7 (by norm_num [cfg7])
    (by norm_num [cfg7]) (euler_solve fzero cfg7) (by simp)

lemma hclamp_ge_min (cfg : SolverConfig) (t h : ℝ) :
    cfg.min_step ≤ rk45_hclamp cfg t h :=
  le_max_left _ _

lemma hclamp_le_max (cfg : SolverConfig) (t h : ℝ)
    (hmM : cfg.min_step ≤ cfg.max_step) :
    rk45_hclamp cfg t h ≤ cfg.max_step :=
  max_le hmM (min_le_right _ _)

lemma hclamp_le_h (cfg : SolverConfig) (t h : ℝ) (hh : cfg.min_step ≤ h) :
    rk45_hclamp cfg t h ≤ h := by
  unfold rk45_hclamp
  have h1le : (if t + h > cfg.time_end then cfg.time_end - t else h) ≤ h := by
    split
    · rename_i hgt; linarith
    · exact le_rfl
  exact max_le hh (le_trans (min_le_left _ _) h1le)

lemma hclamp_eq_min_of_le (cfg : SolverConfig) (t h : ℝ)
    (hh : h ≤ cfg.min_step) : rk45_hclamp cfg t h = cfg.min_step := by
  unfold rk45_hclamp
  apply max_eq_left
  have h1le : (if t + h > cfg.time_end then cfg.time_end - t else h) ≤
      cfg.min_step := by
    split
    · rename_i hgt; linarith
    · exact hh
  exact le_trans (min_le_left _ _) h1le

lemma t_add_hclamp_lt (cfg : SolverConfig) (t h : ℝ) (ht : t < cfg.time_end)
    (hm : 0 < cfg.min_step) :
    t + rk45_hclamp cfg t h < cfg.time_end + cfg.min_step := by
  unfold rk45_hclamp
  rcases le_or_lt
      (min (if t + h > cfg.time_end then cfg.time_end - t else h) cfg.max_step)
      cfg.min_step with hle | hgt
  · rw [max_eq_left hle]
    linarith
  · rw [max_eq_right hgt.le]
    by_cases hcase : t + h > cfg.time_end
    · rw [if_pos hcase]
      have := min_le_left (cfg.time_end - t) cfg.max_step
      linarith
    · rw [if_neg hcase]
      push_neg at hcase
      have := min_le_left h cfg.max_step
      linarith

lemma next_h_le (cfg : SolverConfig) (hm : 0 < cfg.min_step)
    (hmM : cfg.min_step ≤ cfg.max_step) (t h err : ℝ) :
    rk45_next_h cfg (rk45_hclamp cfg t h) err ≤ 5 * cfg.max_step := by
  unfold rk45_next_h
  split
  · have hpos : (0 : ℝ) ≤ rk45_hclamp cfg t h :=
      le_trans hm.le (hclamp_ge_min cfg t h)
    calc adjust_step_size (rk45_hclamp cfg t h) err cfg.tolerance
        ≤ 5 * rk45_hclamp cfg t h := adjust_le_five _ _ _ hpos
      _ ≤ 5 * cfg.max_step := by nlinarith [hclamp_le_max cfg t h hmM]
  · calc rk45_hclamp cfg t h ≤ cfg.max_step := hclamp_le_max cfg t h hmM
      _ ≤ 5 * cfg.max_step := by nlinarith [lt_of_lt_of_le hm hmM]

lemma rk45_accept_package (f : ODEFunction) (cfg : SolverConfig)
    (hm : 0 < cfg.min_step) (t : ℝ) (y : State) (h : ℝ) (ht : t < cfg.time_end)
    (hacc : compute_error (step_embedded f t y (rk45_hclamp cfg t h)).1
        (step_embedded f t y (rk45_hclamp cfg t h)).2 ≤ cfg.tolerance ∨
      rk45_hclamp cfg t h ≤ cfg.min_step)
    (cont : ∃ (fuel : ℕ) (l : List (State × ℝ)),
      rk45_loop f cfg fuel (t + rk45_hclamp cfg t h)
          (step_embedded f t y (rk45_hclamp cfg t h)).1
          (rk45_next_h cfg (rk45_hclamp cfg t h)
            (compute_error (step_embedded f t y (rk45_hclamp cfg t h)).1
              (step_embedded f t y (rk45_hclamp cfg t h)).2)) = some l ∧
      List.Chain (fun u v => u + cfg.min_step ≤ v) (t + rk45_hclamp cfg t h)
        (l.map Prod.snd) ∧
      (l.length : ℝ) * cfg.min_step <
        (cfg.time_end - (t + rk45_hclamp cfg t h)) + cfg.min_step) :
    ∃ (fuel : ℕ) (l : List (State × ℝ)),
      rk45_loop f cfg fuel t y h = some l ∧
      List.Chain (fun u v => u + cfg.min_step ≤ v) t (l.map Prod.snd) ∧
      (l.length : ℝ) * cfg.min_step < (cfg.time_end - t) + cfg.min_step := by
  obtain ⟨fuel', l', hl', hchain', hlen'⟩ := cont
  have hge := hclamp_ge_min cfg t h
  refine ⟨fuel' + 1,
    ((step_embedded f t y (rk45_hclamp cfg t h)).1, t + rk45_hclamp cfg t h) :: l',
    ?_, ?_, ?_⟩
  · rw [rk45_loop_accept f cfg fuel' t y h _ _ ht
      (rk45_iterate_accept f cfg t y h hacc)]
    show (rk45_loop f cfg fuel' (t + rk45_hclamp cfg t h)
        (step_embedded f t y (rk45_hclamp cfg t h)).1
        (rk45_next_h cfg (rk45_hclamp cfg t h)
          (compute_error (step_embedded f t y (rk45_hclamp cfg t h)).1
            (step_embedded f t y (rk45_hclamp cfg t h)).2))).map
      (fun rest =>
        ((step_embedded f t y (rk45_hclamp cfg t h)).1,
          t + rk45_hclamp cfg t h) :: rest) = _
    rw [hl']
    rfl
  · rw [List.map_cons]
    refine List.Chain.cons ?_ hchain'
    show t + cfg.min_step ≤ t + rk45_hclamp cfg t h
    linarith
  · rw [List.length_cons]
    have hexp : (((l'.length : ℕ) + 1 : ℕ) : ℝ) * cfg.min_step =
        (l'.length : ℝ) * cfg.min_step + cfg.min_step := by
      push_cast
      ring
    rw [hexp]
    linarith

lemma rk45_terminates_aux (f : ODEFunction) (cfg : SolverConfig)
    (htol : 0 < cfg.tolerance) (hm : 0 < cfg.min_step)
    (hmM : cfg.min_step ≤ cfg.max_step) (K : ℕ)
    (hK : 5 * cfg.max_step ≤ cfg.min_step * (10 / 9) ^ K) :
    ∀ (a b : ℕ) (t : ℝ) (y : State) (h : ℝ),
      t < cfg.time_end + cfg.min_step →
      cfg.time_end - t ≤ (a : ℝ) * cfg.min_step →
      h ≤ cfg.min_step * (10 / 9) ^ b →
      ∃ (fuel : ℕ) (l : List (State × ℝ)),
        rk45_loop f cfg fuel t y h = some l ∧
        List.Chain (fun u v => u + cfg.min_step ≤ v) t (l.map Prod.snd) ∧
        (l.length : ℝ) * cfg.min_step < (cfg.time_end - t) + cfg.min_step := by
  intro a
  induction a with
  | zero =>
    intro b t y h htm hta hhb
    have hnt : ¬ t < cfg.time_end := by
      simp only [Nat.cast_zero, zero_mul] at hta
      linarith
    refine ⟨0, [], rk45_loop_done f cfg 0 t y h hnt, List.Chain.nil, ?_⟩
    simp only [List.length_nil, Nat.cast_zero, zero_mul]
    linarith
  | succ a iha =>
    intro b
    induction b with
    | zero =>
      intro t y h htm hta hhb
      by_cases ht : t < cfg.time_end
      · rw [pow_zero, mul_one] at hhb
        have hcl : rk45_hclamp cfg t h = cfg.min_step :=
          hclamp_eq_min_of_le cfg t h hhb
        apply rk45_accept_package f cfg hm t y h ht (Or.inr (le_of_eq hcl))
        apply iha K (t + rk45_hclamp cfg t h)
          (step_embedded f t y (rk45_hclamp cfg t h)).1
          (rk45_next_h cfg (rk45_hclamp cfg t h)
            (compute_error (step_embedded f t y (rk45_hclamp cfg t h)).1
              (step_embedded f t y (rk45_hclamp cfg t h)).2))
        · exact t_add_hclamp_lt cfg t h ht hm
        · have hge := hclamp_ge_min cfg t h
          push_cast at hta ⊢
          linarith
        · exact le_trans (next_h_le cfg hm hmM t h _) hK
      · refine ⟨0, [], rk45_loop_done f cfg 0 t y h ht, List.Chain.nil, ?_⟩
        simp only [List.length_nil, Nat.cast_zero, zero_mul]
        linarith
    | succ b ihb =>
      intro t y h htm hta hhb
      by_cases ht : t < cfg.time_end
      · by_cases hacc : compute_error (step_embedded f t y (rk45_hclamp cfg t h)).1
            (step_embedded f t y (rk45_hclamp cfg t h)).2 ≤ cfg.tolerance ∨
            rk45_hclamp cfg t h ≤ cfg.min_step
        · apply rk45_accept_package f cfg hm t y h ht hacc
          apply iha K (t + rk45_hclamp cfg t h)
            (step_embedded f t y (rk45_hclamp cfg t h)).1
            (rk45_next_h cfg (rk45_hclamp cfg t h)
              (compute_error (step_embedded f t y (rk45_hclamp cfg t h)).1
                (step_embedded f t y (rk45_hclamp cfg t h)).2))
          · exact t_add_hclamp_lt cfg t h ht hm
          · have hge := hclamp_ge_min cfg t h
            push_cast at hta ⊢
            linarith
          · exact le_trans (next_h_le cfg hm hmM t h _) hK
        · push_neg at hacc
          have hh2pos : 0 < rk45_hclamp cfg t h := lt_trans hm hacc.2
          have hmh : cfg.min_step < h := by
            by_contra hle
            push_neg at hle
            rw [hclamp_eq_min_of_le cfg t h hle] at hacc
            exact lt_irrefl _ hacc.2
          have hh2h : rk45_hclamp cfg t h ≤ h := hclamp_le_h cfg t h hmh.le
          have hshr := adjust_shrink (rk45_hclamp cfg t h)
            (compute_error (step_embedded f t y (rk45_hclamp cfg t h)).1
              (step_embedded f t y (rk45_hclamp cfg t h)).2)
            cfg.tolerance hh2pos htol hacc.1
          have hnext : adjust_step_size (rk45_hclamp cfg t h)
              (compute_error (step_embedded f t y (rk45_hclamp cfg t h)).1
                (step_embedded f t y (rk45_hclamp cfg t h)).2) cfg.tolerance ≤
              cfg.min_step * (10 / 9) ^ b := by
            have hps : ((10 : ℝ) / 9) ^ (b + 1) = (10 / 9) ^ b * (10 / 9) :=
              pow_succ _ _
            rw [hps] at hhb
            nlinarith [pow_pos (by norm_num : (0 : ℝ) < 10 / 9) b]
          obtain ⟨fuel', l', hl', hchain', hlen'⟩ := ihb t y
            (adjust_step_size (rk45_hclamp cfg t h)
              (compute_error (step_embedded f t y (rk45_hclamp cfg t h)).1
                (step_embedded f t y (rk45_hclamp cfg t h)).2) cfg.tolerance)
            htm hta hnext
          refine ⟨fuel' + 1, l', ?_, hchain', hlen'⟩
          rw [rk45_loop_reject f cfg fuel' t y h _ ht
            (rk45_iterate_reject f cfg t y h (by push_neg; exact hacc))]
          exact hl'
      · refine ⟨0, [], rk45_loop_done f cfg 0 t y h ht, List.Chain.nil, ?_⟩
        simp only [List.length_nil, Nat.cast_zero, zero_mul]
        linarith

/-- C7 amended: for every derivative function and every configuration with
tolerance > 0, 0 < min_step ≤ max_step and time_end ≥ time_start, the RK45
adaptive loop terminates (some finite fuel suffices, so in particular
every run of consecutive rejections is finite), every accepted step
advances t by at least min_step (consecutive trajectory times differ by at
least min_step), and the number n of accepted steps satisfies
n * min_step < (time_end - time_start) + min_step, i.e.
n < (time_end - time_start)/min_step + 1 (the claim's bound
n ≤ (time_end - time_start)/min_step is off by one). -/
theorem c7_termination_and_bounds (f : ODEFunction) (cfg : SolverConfig)
    (htol : 0 < cfg.tolerance) (hm : 0 < cfg.min_step)
    (hmM : cfg.min_step ≤ cfg.max_step) (hse : cfg.time_start ≤ cfg.time_end) :
    ∃ (fuel : ℕ) (rest : List (State × ℝ)),
      rk45_loop f cfg fuel cfg.time_start cfg.initial_state cfg.step_size =
        some rest ∧
      rk45_solve f cfg fuel =
        some ((cfg.initial_state, cfg.time_start) :: rest) ∧
      List.Chain (fun u v => u + cfg.min_step ≤ v) cfg.time_start
        (rest.map Prod.snd) ∧
      (rest.length : ℝ) * cfg.min_step <
        (cfg.time_end - cfg.time_start) + cfg.min_step := by
  obtain ⟨K, hK0⟩ := pow_unbounded_of_one_lt
    (5 * cfg.max_step / cfg.min_step) (by norm_num : (1 : ℝ) < 10 / 9)
  have hK : 5 * cfg.max_step ≤ cfg.min_step * (10 / 9) ^ K := by
    rw [div_lt_iff₀ hm] at hK0
    nlinarith
  obtain ⟨b, hb0⟩ := pow_unbounded_of_one_lt
    (cfg.step_size / cfg.min_step) (by norm_num : (1 : ℝ) < 10 / 9)
  have hb : cfg.step_size ≤ cfg.min_step * (10 / 9) ^ b := by
    rw [div_lt_iff₀ hm] at hb0
    nlinarith
  have hnn : (0 : ℝ) ≤ (cfg.time_end - cfg.time_start) / cfg.min_step :=
    div_nonneg (by linarith) hm.le
  have h3 : (((⌈(cfg.time_end - cfg.time_start) / cfg.min_step⌉).toNat : ℤ)) =
      ⌈(cfg.time_end - cfg.time_start) / cfg.min_step⌉ :=
    Int.toNat_of_nonneg (Int.ceil_nonneg hnn)
  have hta : cfg.time_end - cfg.time_start ≤
      (((⌈(cfg.time_end - cfg.time_start) / cfg.min_step⌉).toNat : ℕ) : ℝ) *
        cfg.min_step := by
    have h1 : (cfg.time_end - cfg.time_start) / cfg.min_step ≤
        ((⌈(cfg.time_end - cfg.time_start) / cfg.min_step⌉ : ℤ) : ℝ) :=
      Int.le_ceil _
    have h4 : (((⌈(cfg.time_end - cfg.time_start) / cfg.min_step⌉).toNat : ℕ) : ℝ) =
        ((⌈(cfg.time_end - cfg.time_start) / cfg.min_step⌉ : ℤ) : ℝ) := by
      exact_mod_cast h3
    calc cfg.time_end - cfg.time_start
        = (cfg.time_end - cfg.time_start) / cfg.min_step * cfg.min_step :=
          (div_mul_cancel₀ _ (ne_of_gt hm)).symm
      _ ≤ ((⌈(cfg.time_end - cfg.time_start) / cfg.min_step⌉ : ℤ) : ℝ) *
            cfg.min_step := mul_le_mul_of_nonneg_right h1 hm.le
      _ = _ := by rw [h4]
  obtain ⟨fuel, l, hl, hchain, hlen⟩ := rk45_terminates_aux f cfg htol hm hmM K hK
    (⌈(cfg.time_end - cfg.time_start) / cfg.min_step⌉).toNat b
    cfg.time_start cfg.initial_state cfg.step_size (by linarith) hta hb
  refine ⟨fuel, l, hl, ?_, hchain, hlen⟩
  unfold rk45_solve
  rw [hl]
  rfl

/-- C7 witness: the amended termination and bounds at a concrete
derivative function and configuration. -/
theorem c7_termination_witness :
    ∃ (fuel : ℕ) (rest : List (State × ℝ)),
      rk45_loop fzero cfg7 fuel cfg7.time_start cfg7.initial_state
        cfg7.step_size = some rest ∧
      rk45_solve fzero cfg7 fuel =
        some ((cfg7.initial_state, cfg7.time_start) :: rest) ∧
      List.Chain (fun u v => u + cfg7.min_step ≤ v) cfg7.time_start
        (rest.map Prod.snd) ∧
      (rest.length : ℝ) * cfg7.min_step <
        (cfg7.time_end - cfg7.time_start) + cfg7.min_step :=
  c7_termination_and_bounds fzero cfg7 (by norm_num [cfg7])
    (by norm_num [cfg7]) (by norm_num [cfg7]) (by norm_num [cfg7])

lemma hclamp_cfg7_a : rk45_hclamp cfg7 0 1 = 1 := by
  simp only [rk45_hclamp, cfg7]
  rw [if_neg (by norm_num : ¬ ((0 : ℝ) + 1 > 5 / 2))]
  rw [min_self, max_self]

lemma hclamp_cfg7_b : rk45_hclamp cfg7 1 1 = 1 := by
  simp only [rk45_hclamp, cfg7]
  rw [if_neg (by norm_num : ¬ ((1 : ℝ) + 1 > 5 / 2))]
  rw [min_self, max_self]

lemma hclamp_cfg7_c : rk45_hclamp cfg7 2 1 = 1 := by
  simp only [rk45_hclamp, cfg7]
  rw [if_pos (by norm_num : (2 : ℝ) + 1 > 5 / 2)]
  rw [show (5 : ℝ) / 2 - 2 = 1 / 2 by norm_num]
  rw [min_eq_left (by norm_num : (1 : ℝ) / 2 ≤ 1)]
  rw [max_eq_left (by norm_num : (1 : ℝ) / 2 ≤ 1)]

lemma iterate_cfg7 (t : ℝ) (hcl : rk45_hclamp cfg7 t 1 = 1) :
    rk45_iterate fzero cfg7 t [1] 1 = ((t + 1, [1], 1), some ([1], t + 1)) := by
  have hacc : compute_error (step_embedded fzero t [1] (rk45_hclamp cfg7 t 1)).1
      (step_embedded fzero t [1] (rk45_hclamp cfg7 t 1)).2 ≤ cfg7.tolerance ∨
      rk45_hclamp cfg7 t 1 ≤ cfg7.min_step := by
    left
    rw [hcl, step_embedded_fzero]
    rw [show ((([1], [1]) : State × State)).1 = [1] from rfl,
      show ((([1], [1]) : State × State)).2 = [1] from rfl, compute_error_ones]
    norm_num [cfg7]
  rw [rk45_iterate_accept fzero cfg7 t [1] 1 hacc]
  rw [hcl, step_embedded_fzero]
  simp only [rk45_next_h, compute_error_ones]
  rw [if_neg (by norm_num)]

lemma loop_cfg7 : rk45_loop fzero cfg7 4 0 [1] 1 =
    some [([1], 1), ([1], 2), ([1], 3)] := by
  have e1 : rk45_iterate fzero cfg7 0 [1] 1 = ((1, [1], 1), some ([1], 1)) := by
    have := iterate_cfg7 0 hclamp_cfg7_a
    norm_num at this
    exact this
  have e2 : rk45_iterate fzero cfg7 1 [1] 1 = ((2, [1], 1), some ([1], 2)) := by
    have := iterate_cfg7 1 hclamp_cfg7_b
    norm_num at this
    exact this
  have e3 : rk45_iterate fzero cfg7 2 [1] 1 = ((3, [1], 1), some ([1], 3)) := by
    have := iterate_cfg7 2 hclamp_cfg7_c
    norm_num at this
    exact this
  have l1 : rk45_loop fzero cfg7 1 3 [1] 1 = some [] :=
    rk45_loop_done fzero cfg7 1 3 [1] 1 (by norm_num [cfg7])
  have l2 : rk45_loop fzero cfg7 2 2 [1] 1 = some [([1], 3)] := by
    rw [show (2 : ℕ) = 1 + 1 from rfl,
      rk45_loop_accept fzero cfg7 1 2 [1] 1 (3, [1], 1) ([1], 3)
        (by norm_num [cfg7]) e3]
    show (rk45_loop fzero cfg7 1 3 [1] 1).map (fun rest => ([1], 3) :: rest) = _
    rw [l1]
    rfl
  have l3 : rk45_loop fzero cfg7 3 1 [1] 1 = some [([1], 2), ([1], 3)] := by
    rw [show (3 : ℕ) = 2 + 1 from rfl,
      rk45_loop_accept fzero cfg7 2 1 [1] 1 (2, [1], 1) ([1], 2)
        (by norm_num [cfg7]) e2]
    show (rk45_loop fzero cfg7 2 2 [1] 1).map (fun rest => ([1], 2) :: rest) = _
    rw [l2]
    rfl
  rw [show (4 : ℕ) = 3 + 1 from rfl,
    rk45_loop_accept fzero cfg7 3 0 [1] 1 (1, [1], 1) ([1], 1)
      (by norm_num [cfg7]) e1]
  show (rk45_loop fzero cfg7 3 1 [1] 1).map (fun rest => ([1], 1) :: rest) = _
  rw [l3]
  rfl

lemma solve_cfg7 : rk45_solve fzero cfg7 4 =
    some [([1], 0), ([1], 1), ([1], 2), ([1], 3)] := by
  unfold rk45_solve
  rw [show cfg7.time_start = (0 : ℝ) from rfl,
    show cfg7.initial_state = ([1] : State) from rfl,
    show cfg7.step_size = (1 : ℝ) from rfl, loop_cfg7]
  rfl

/-- C7 counterexample (to the accepted-step bound): cfg7 satisfies every
hypothesis of the claim (tolerance 1 > 0, 0 < min_step = max_step = 1,
time_end = 5/2 ≥ 0 = time_start), yet the adaptive solve performs 3
accepted steps (trajectory of 4 points) while
(time_end - time_start)/min_step = 5/2 < 3: the final truncated step is
clamped back up to min_step, so the accepted-step count can exceed the
claimed bound by one. -/
theorem c7_accepted_steps_exceed_bound :
    0 < cfg7.tolerance ∧ 0 < cfg7.min_step ∧ cfg7.min_step ≤ cfg7.max_step ∧
    cfg7.time_start ≤ cfg7.time_end ∧
    rk45_solve fzero cfg7 4 = some [([1], 0), ([1], 1), ([1], 2), ([1], 3)] ∧
    (cfg7.time_end - cfg7.time_start) / cfg7.min_step < 3 := by
  refine ⟨by norm_num [cfg7], by norm_num [cfg7], by norm_num [cfg7],
    by norm_num [cfg7], solve_cfg7, by norm_num [cfg7]⟩

end ODE
